import Mathlib

/-!
Verification of the Ratodui terminal todo application (src/main.rs).

The data model, the progress-bar arithmetic, the mouse hit handling and the
event-loop state machine are translated from the source into executable Lean
definitions; the theorems below settle the specification claims about them.

External collaborators (the terminal, the ratatui layout solver, the
filesystem and the JSON codec) are not part of the source; where a claim
needs them they are abstracted as parameters or modelled from their
documented contracts, and marked as such.
-/

set_option maxHeartbeats 1000000

namespace Ratodui

/-- A todo item, from `struct Todo` in src/main.rs: a name and a progress
percentage. `progress` is a `u16` in the source, documented there as a value
in 0–100; it is modelled as `Nat`. -/
structure Todo where
  name : String
  progress : Nat
  deriving DecidableEq, Repr

instance : Inhabited Todo := ⟨⟨"", 0⟩⟩

/-- A terminal-cell rectangle, as `ratatui::layout::Rect` (`u16` fields).
For any rectangle that lies on a terminal screen, `x + width` and
`y + height` fit in `u16`, so the additions below are modelled exactly. -/
structure Rect where
  x : Nat
  y : Nat
  width : Nat
  height : Nat
  deriving DecidableEq, Repr

/-- The key codes distinguished by the source: `Char(c)`, `Backspace`,
`Enter`, `Esc`, and a catch-all for every other key. -/
inductive KeyCode where
  | char : Char → KeyCode
  | backspace
  | enter
  | esc
  | otherKey
  deriving DecidableEq, Repr

inductive MouseButton where
  | left
  | middle
  | right
  deriving DecidableEq, Repr

/-- Mouse event kinds used by the source: `Down`, `Up`, `Drag`, `Moved`,
and a catch-all for the remaining crossterm kinds (scroll, …). -/
inductive MouseKind where
  | down : MouseButton → MouseKind
  | up : MouseButton → MouseKind
  | drag : MouseButton → MouseKind
  | moved
  | otherMouse
  deriving DecidableEq, Repr

structure MouseEvent where
  kind : MouseKind
  column : Nat
  row : Nat
  deriving DecidableEq, Repr

/-- A crossterm terminal event as seen by the main loop: key, mouse, or one
of the other variants (which the input thread filters out, making the
corresponding main-loop branch dead; it is kept for fidelity). -/
inductive CEvent where
  | key : KeyCode → CEvent
  | mouse : MouseEvent → CEvent
  | otherEvent
  deriving DecidableEq, Repr

/-- The channel message type `Event<I>` of the source: an input event or a
periodic tick. -/
inductive Event where
  | input : CEvent → Event
  | tick
  deriving DecidableEq, Repr

/-- The mutable state owned by the main loop in src/main.rs: the todo list,
the drag-tracking variables, the edit-mode variables, plus `saves`, a log of
the arguments of the `save_todos` calls (most recent first), modelling the
persistence effect. -/
structure LoopState where
  todos : List Todo
  dragging : Bool
  drag_index : Option Nat
  editing_index : Option Nat
  input_buffer : String
  just_started_editing : Bool
  saves : List (List Todo)
  deriving DecidableEq, Repr

/-- The suffix string computed in both `update_progress` and
`build_progress_bar`: a space, the decimal digits of the percentage, and a
percent sign. -/
def percent_string (p : Nat) : String := " " ++ toString p ++ "%"

/-- Translation of `is_inside` in src/main.rs: half-open containment of a
`(column, row)` point in a rectangle. -/
def is_inside (pos : Nat × Nat) (area : Rect) : Bool :=
  decide (area.x ≤ pos.1 ∧ pos.1 < area.x + area.width ∧
          area.y ≤ pos.2 ∧ pos.2 < area.y + area.height)

/-- Modelled from the spec: the horizontal split of a todo row performed by
the external ratatui layout solver on the constraint list
`[Length(30), Min(1)]` appearing in src/main.rs — a fixed 30-column title
region followed by the remainder as the bar region (spec section 4.2). -/
def split_horizontal (r : Rect) : Rect × Rect :=
  (⟨r.x, r.y, min 30 r.width, r.height⟩,
   ⟨r.x + min 30 r.width, r.y, r.width - min 30 r.width, r.height⟩)

/-- Translation of `update_progress` in src/main.rs. The `u16` product
`relative_x * 100` can exceed the `u16` range for wide bars and wraps
(release semantics), hence the explicit mod; the additions cannot overflow
for on-screen rectangles and are modelled exactly. -/
def update_progress (todo : Todo) (area : Rect) (mouse_x : Nat) : Todo :=
  let percent_str := percent_string todo.progress
  let extra_chars := 2 + percent_str.length
  if area.width ≤ extra_chars then
    todo
  else
    let bar_width := area.width - extra_chars
    let progress_bar_start_x := area.x + 1
    let progress_bar_end_x := progress_bar_start_x + bar_width
    if progress_bar_start_x ≤ mouse_x ∧ mouse_x ≤ progress_bar_end_x then
      let relative_x := mouse_x - progress_bar_start_x
      let progress := min (relative_x * 100 % 65536 / bar_width) 100
      if todo.progress ≠ progress then { todo with progress := progress } else todo
    else todo

/-- Translation of `build_progress_bar` in src/main.rs. Note the narrow
branch of the source formats the suffix with a second percent sign appended
after it; that behaviour is kept exactly. -/
def build_progress_bar (progress : Nat) (width : Nat) : String :=
  let percent_str := percent_string progress
  let extra_chars := 2 + percent_str.length
  if width ≤ extra_chars then
    percent_str ++ "%"
  else
    let bar_width := width - extra_chars
    let filled_blocks := progress * bar_width / 100
    let empty_blocks := bar_width - filled_blocks
    "[" ++ String.mk (List.replicate filled_blocks '#') ++
      String.mk (List.replicate empty_blocks '-') ++ "]" ++ percent_str

/-- The scan over `chunks.iter().enumerate()` in `process_mouse_event`:
find the first chunk with index below the todo count that contains the
point, returning its index and rectangle. -/
def find_todo_hit : List Rect → Nat → Nat × Nat → Option (Nat × Rect)
  | [], _, _ => none
  | _ :: _, 0, _ => none
  | c :: rest, n + 1, pos =>
    if is_inside pos c then some (0, c)
    else (find_todo_hit rest n pos).map (fun p => (p.1 + 1, p.2))

/-- The commit sequence repeated in the edit-mode branches of `main`:
`todos[i].name = input_buffer.clone(); input_buffer.clear();
editing_index = None; save_todos(&todos);`. The source indexes `todos[i]`
unconditionally; `editing_index` always holds an in-range index there, so
the out-of-range guard below is never taken by the program. -/
def commit_edit (i : Nat) (s : LoopState) : LoopState :=
  let todos :=
    match s.todos.get? i with
    | some t => s.todos.set i { t with name := s.input_buffer }
    | none => s.todos
  { s with todos := todos, input_buffer := "", editing_index := none,
           saves := todos :: s.saves }

/-- Translation of `process_mouse_event` in src/main.rs. The drag branch of
the source indexes `chunks[i]` unconditionally; `main` always passes one
chunk per todo plus one for the add button, so the out-of-range guard below
is never taken by the program. -/
def process_mouse_event (m : MouseEvent) (chunks : List Rect) (s : LoopState) :
    LoopState :=
  match m.kind with
  | .down b =>
    if b = .left then
      let pos := (m.column, m.row)
      match find_todo_hit chunks s.todos.length pos with
      | some (i, chunk) =>
        let horizontal_chunks := split_horizontal chunk
        if is_inside pos horizontal_chunks.1 then
          { s with editing_index := some i, just_started_editing := true,
                   input_buffer :=
                     if (s.todos.getD i default).name = "New Todo" then ""
                     else (s.todos.getD i default).name }
        else if is_inside pos horizontal_chunks.2 then
          let todos := s.todos.set i
            (update_progress (s.todos.getD i default) horizontal_chunks.2 m.column)
          { s with dragging := true, drag_index := some i,
                   todos := todos, saves := todos :: s.saves }
        else s
      | none =>
        match chunks.get? s.todos.length with
        | some add_button_rect =>
          if is_inside pos add_button_rect then
            let todos := s.todos ++ [⟨"New Todo", 0⟩]
            { s with todos := todos, saves := todos :: s.saves }
          else s
        | none => s
    else s
  | .drag b =>
    if s.editing_index = none ∧ s.dragging = true ∧ b = .left then
      match s.drag_index with
      | some i =>
        match chunks.get? i with
        | some chunk =>
          let horizontal_chunks := split_horizontal chunk
          let todos := s.todos.set i
            (update_progress (s.todos.getD i default) horizontal_chunks.2 m.column)
          { s with todos := todos, saves := todos :: s.saves }
        | none => s
      | none => s
    else s
  | .up b =>
    if b = .left then { s with dragging := false, drag_index := none } else s
  | _ => s

/-- Translation of the `Event::Input` arm of the main loop of src/main.rs.
Returns the next state and whether the loop breaks. In the edit-mode
catch-all key branch the source re-checks the key against `Char('q')`;
that comparison is kept verbatim, although the earlier `Char(c)` arm makes
it unreachable. -/
def handle_input (e : CEvent) (chunks : List Rect) (s : LoopState) :
    LoopState × Bool :=
  match s.editing_index with
  | some i =>
    match e with
    | .key k =>
      match k with
      | .char c => ({ s with input_buffer := s.input_buffer.push c }, false)
      | .backspace =>
        ({ s with input_buffer := String.mk s.input_buffer.data.dropLast }, false)
      | .enter => (commit_edit i s, false)
      | .esc => (commit_edit i s, false)
      | .otherKey =>
        (commit_edit i s, decide (KeyCode.otherKey = KeyCode.char 'q'))
    | .mouse m =>
      if s.just_started_editing then
        ({ s with just_started_editing := false }, false)
      else
        match m.kind with
        | .moved => (s, false)
        | _ => (process_mouse_event m chunks (commit_edit i s), false)
    | .otherEvent => (commit_edit i s, false)
  | none =>
    match e with
    | .key k => (s, decide (k = KeyCode.char 'q'))
    | .mouse m => (process_mouse_event m chunks s, false)
    | .otherEvent => (s, false)

/-- One iteration of the main loop's event handling: an input event is
dispatched as above, a tick does nothing. -/
def handle_event (ev : Event) (chunks : List Rect) (s : LoopState) :
    LoopState × Bool :=
  match ev with
  | .input e => handle_input e chunks s
  | .tick => (s, false)

/-- The main loop run on a sequence of steps. `main` recomputes the layout
chunks from the current terminal size on every iteration, so each step
carries its own chunk list; the loop stops when a handler breaks. -/
def run_events : List (List Rect × Event) → LoopState → LoopState
  | [], s => s
  | (chunks, ev) :: rest, s =>
    let r := handle_event ev chunks s
    if r.2 then r.1 else run_events rest r.1

/-- Translation of `load_todos` in src/main.rs, with the external effects
abstracted as parameters: `proj_dirs` is the outcome of
`ProjectDirs::from("com", "todo", "todo")`, `read_result` the outcome of
`fs::read_to_string`, and `parse` the outcome of `serde_json::from_str` on
the contents read. -/
def load_todos (proj_dirs : Option Unit) (read_result : Option String)
    (parse : String → Option (List Todo)) : List Todo :=
  match proj_dirs with
  | none => []
  | some _ =>
    match read_result with
    | none => []
    | some contents =>
      match parse contents with
      | none => []
      | some loaded_todos => loaded_todos

/-- The startup seeding in `main`: if no todos were loaded, push one
default todo. -/
def init_todos (todos : List Todo) : List Todo :=
  if todos.isEmpty then todos ++ [⟨"New Todo", 0⟩] else todos

/-- The initial interaction state of `main`, for a given loaded list. -/
def initial_state (todos : List Todo) : LoopState :=
  { todos := todos, dragging := false, drag_index := none,
    editing_index := none, input_buffer := "", just_started_editing := false,
    saves := [] }

/-- A parse outcome that always fails, used to instantiate `load_todos`. -/
def failing_parse : String → Option (List Todo) := fun _ => none

/-- A sample two-row layout (one todo row and the add-button row) used to
instantiate the event-loop theorems on concrete inputs. -/
def sample_chunks : List Rect := [⟨1, 1, 60, 1⟩, ⟨1, 2, 60, 1⟩]

/-- Did the handled event begin dragging tracking, syntactically: a
left-button mouse Down wrapped as an input event. -/
def left_down_event : Event → Bool
  | .input (.mouse m) =>
    match m.kind with
    | .down b => decide (b = .left)
    | _ => false
  | _ => false

/-- Track, along an event sequence, whether a left Down has been handled
with no left Up after it. -/
def down_flag : Event → Bool → Bool
  | .input (.mouse m), flag =>
    match m.kind with
    | .down b => if b = .left then true else flag
    | .up b => if b = .left then false else flag
    | _ => flag
  | _, flag => flag

/-- Well-formed event sequences: every left-button mouse Down arrives only
when no earlier left Down is still unmatched by a left Up. Physical
terminals produce only such sequences for a single button. -/
def wf_events : List (List Rect × Event) → Bool → Bool
  | [], _ => true
  | (_, ev) :: rest, flag =>
    (!left_down_event ev || !flag) && wf_events rest (down_flag ev flag)

/-- The drag/edit mutual-exclusion invariant on the loop state. -/
def mutex (s : LoopState) : Prop :=
  s.dragging = false ∨ s.editing_index = none

/-- C10: if the bar region's width does not exceed the overhead computed
from the todo's current progress value, `update_progress` leaves the todo
unchanged for every mouse column. -/
theorem c10_narrow_noop (t : Todo) (area : Rect) (mouse_x : Nat)
    (h : area.width ≤ 2 + (percent_string t.progress).length) :
    update_progress t area mouse_x = t := by
  simp only [update_progress]
  rw [if_pos h]

theorem c10_narrow_noop_witness :
    update_progress ⟨"A", 48⟩ ⟨10, 0, 6, 1⟩ 12 = ⟨"A", 48⟩ :=
  c10_narrow_noop ⟨"A", 48⟩ ⟨10, 0, 6, 1⟩ 12 (by decide)

/-- C9: every failure of the load pipeline (unresolvable directory, failed
read, failed JSON decode) yields the empty list, a successful decode yields
the decoded list, and an empty loaded list is seeded at startup with the
single default todo. -/
theorem c9_load_fallback (read_result : Option String)
    (parse : String → Option (List Todo)) (contents : String)
    (loaded : List Todo) :
    load_todos none read_result parse = [] ∧
    load_todos (some ()) none parse = [] ∧
    (parse contents = none → load_todos (some ()) (some contents) parse = []) ∧
    (parse contents = some loaded → load_todos (some ()) (some contents) parse = loaded) ∧
    init_todos [] = [⟨"New Todo", 0⟩] := by
  refine ⟨rfl, rfl, ?_, ?_, rfl⟩
  · intro h; simp [load_todos, h]
  · intro h; simp [load_todos, h]

theorem c9_load_fallback_witness :
    load_todos none none failing_parse = [] ∧
    load_todos (some ()) none failing_parse = [] ∧
    load_todos (some ()) (some "junk") failing_parse = [] ∧
    init_todos [] = [⟨"New Todo", 0⟩] :=
  ⟨(c9_load_fallback none failing_parse "junk" []).1,
   (c9_load_fallback none failing_parse "junk" []).2.1,
   (c9_load_fallback none failing_parse "junk" []).2.2.1 rfl,
   (c9_load_fallback none failing_parse "junk" []).2.2.2.2⟩

/-- C4 fails as stated: starting from progress 0 on the bar region
`[10, 50)`, a mouse down at column 28 sets progress to 48, but the
subsequent drag to column 46 leaves progress at 48 — it does not set 100,
because with a two-digit progress the suffix has grown by one character and
the bar interior has shrunk to `[11, 45]`. -/
theorem c4_counterexample :
    (update_progress ⟨"A", 0⟩ ⟨10, 0, 40, 1⟩ 28).progress = 48 ∧
    (update_progress (update_progress ⟨"A", 0⟩ ⟨10, 0, 40, 1⟩ 28)
        ⟨10, 0, 40, 1⟩ 46).progress = 48 ∧
    (update_progress (update_progress ⟨"A", 0⟩ ⟨10, 0, 40, 1⟩ 28)
        ⟨10, 0, 40, 1⟩ 46).progress ≠ 100 := by
  decide

/-- C4 (amended): on the bar region `[10, 50)`, a mouse down at column 28
sets progress to 48; the drag to column 46 is then a no-op, since the bar
interior for a two-digit progress is `[11, 45]`; a drag to column 11 sets
progress to 0. -/
theorem c4_drag_scenario :
    update_progress ⟨"A", 0⟩ ⟨10, 0, 40, 1⟩ 28 = ⟨"A", 48⟩ ∧
    update_progress ⟨"A", 48⟩ ⟨10, 0, 40, 1⟩ 46 = ⟨"A", 48⟩ ∧
    update_progress ⟨"A", 48⟩ ⟨10, 0, 40, 1⟩ 11 = ⟨"A", 0⟩ := by
  decide

/-- C3 fails as stated: on the bar region `[10, 50)` with progress 0, the
column 46 lies outside the half-open interval `[11, 46)`, yet
`update_progress` does update the todo, setting progress to 100 — the
source compares `mouse_x <= progress_bar_end_x`, an inclusive bound. -/
theorem c3_counterexample :
    ¬ (11 ≤ 46 ∧ 46 < 11 + (40 - (2 + (percent_string 0).length))) ∧
    update_progress ⟨"A", 0⟩ ⟨10, 0, 40, 1⟩ 46 = ⟨"A", 100⟩ := by
  decide

/-- C3 (amended): for a bar region of width exceeding the overhead of the
todo's current progress, with a bar width of at most 655 so that the u16
product `relative_x * 100` does not wrap: if the mouse column lies in the
closed interval from `x+1` to `x+1+bar_width`, progress is set to
`(mx − (x+1)) · 100 / bar_width` clamped to 100; strictly outside that
closed interval the todo is not updated. -/
theorem c3_update_interval (t : Todo) (area : Rect) (mouse_x : Nat)
    (hw : 2 + (percent_string t.progress).length < area.width)
    (hbw : area.width - (2 + (percent_string t.progress).length) ≤ 655) :
    ((area.x + 1 ≤ mouse_x ∧
      mouse_x ≤ area.x + 1 + (area.width - (2 + (percent_string t.progress).length))) →
      update_progress t area mouse_x =
        ⟨t.name, min ((mouse_x - (area.x + 1)) * 100 /
          (area.width - (2 + (percent_string t.progress).length))) 100⟩) ∧
    ((mouse_x < area.x + 1 ∨
      area.x + 1 + (area.width - (2 + (percent_string t.progress).length)) < mouse_x) →
      update_progress t area mouse_x = t) := by
  obtain ⟨n, q⟩ := t
  dsimp only at hw hbw ⊢
  constructor
  · rintro ⟨h1, h2⟩
    simp only [update_progress]
    split
    · next hle => omega
    · next hle =>
      split
      · next hin =>
        rw [Nat.mod_eq_of_lt (by omega)]
        split
        · rfl
        · next hne =>
          simp only [not_not] at hne
          exact congrArg (Todo.mk n) hne
      · next hnin => exact absurd ⟨h1, h2⟩ hnin
  · intro h
    simp only [update_progress]
    split
    · rfl
    · split
      · next hin => rcases h with h | h <;> omega
      · rfl

theorem c3_update_interval_witness :
    update_progress ⟨"A", 0⟩ ⟨10, 0, 40, 1⟩ 30 =
      ⟨"A", min ((30 - (10 + 1)) * 100 /
        (40 - (2 + (percent_string 0).length))) 100⟩ :=
  (c3_update_interval ⟨"A", 0⟩ ⟨10, 0, 40, 1⟩ 30 (by decide) (by decide)).1
    ⟨by decide, by decide⟩

/-- C5 fails as stated: at progress 0 and width 5 (equal to the overhead),
the renderer does not return the suffix `" 0%"`: the source formats the
suffix with a second percent sign appended after it, and the output's
length is overhead − 1, not `min width overhead`. -/
theorem c5_counterexample :
    build_progress_bar 0 5 ≠ percent_string 0 ∧
    (build_progress_bar 0 5).length ≠ min 5 (2 + (percent_string 0).length) := by
  decide

/-- C5 (amended): for every percentage and every width at most the
overhead, the renderer outputs the suffix followed by one extra percent
sign, whose length is the suffix length plus one (overhead − 1),
independent of the width. -/
theorem c5_narrow_render (p width : Nat) (hp : p ≤ 100)
    (hw : width ≤ 2 + (percent_string p).length) :
    build_progress_bar p width = percent_string p ++ "%" ∧
    (build_progress_bar p width).length = (percent_string p).length + 1 := by
  constructor
  · simp only [build_progress_bar]
    rw [if_pos hw]
  · simp only [build_progress_bar]
    rw [if_pos hw, String.length_append]
    have e3 : "%".length = 1 := rfl
    omega

theorem c5_narrow_render_witness :
    build_progress_bar 0 5 = percent_string 0 ++ "%" ∧
    (build_progress_bar 0 5).length = (percent_string 0).length + 1 :=
  c5_narrow_render 0 5 (by decide) (by decide)

/-- C6: for every percentage at most 100 and every width exceeding the
overhead, the renderer outputs a left bracket, `filled` hash marks,
`empty` dashes, a right bracket and the suffix, with
`filled = p · bar_width / 100` (truncating), `empty = bar_width − filled`
and `bar_width = width − overhead`; the output's length is exactly the
width. -/
theorem c6_bar_render (p width : Nat) (hp : p ≤ 100)
    (hw : 2 + (percent_string p).length < width) :
    build_progress_bar p width =
      "[" ++ String.mk (List.replicate
          (p * (width - (2 + (percent_string p).length)) / 100) '#') ++
        String.mk (List.replicate
          ((width - (2 + (percent_string p).length)) -
            p * (width - (2 + (percent_string p).length)) / 100) '-') ++
        "]" ++ percent_string p ∧
    (build_progress_bar p width).length = width := by
  have h1 : ¬ width ≤ 2 + (percent_string p).length := by omega
  have hfb : p * (width - (2 + (percent_string p).length)) / 100 ≤
      width - (2 + (percent_string p).length) := by
    have h2 : p * (width - (2 + (percent_string p).length)) ≤
        100 * (width - (2 + (percent_string p).length)) :=
      Nat.mul_le_mul_right _ hp
    calc p * (width - (2 + (percent_string p).length)) / 100
        ≤ 100 * (width - (2 + (percent_string p).length)) / 100 :=
          Nat.div_le_div_right h2
      _ = width - (2 + (percent_string p).length) :=
          Nat.mul_div_cancel_left _ (by norm_num)
  constructor
  · simp only [build_progress_bar]
    rw [if_neg h1]
  · simp only [build_progress_bar]
    rw [if_neg h1]
    simp only [String.length_append, String.length_mk, List.length_replicate]
    have e1 : "[".length = 1 := rfl
    have e2 : "]".length = 1 := rfl
    omega

/-- C7 fails as stated: in state Editing(0) with buffer "Hello", pressing
the key 'q' does not commit and does not exit the loop — the `Char(c)` arm
catches it first and appends it to the buffer, so the name stays unchanged,
the state stays Editing(0), and no exit happens. -/
theorem c7_counterexample :
    (handle_input (.key (.char 'q')) []
        ⟨[⟨"A", 0⟩], false, none, some 0, "Hello", false, []⟩).1 =
      ⟨[⟨"A", 0⟩], false, none, some 0, "Helloq", false, []⟩ ∧
    (handle_input (.key (.char 'q')) []
        ⟨[⟨"A", 0⟩], false, none, some 0, "Hello", false, []⟩).2 = false := by
  constructor
  · rfl
  · rfl

/-- C7 (amended): in state Editing(i), a character key — including 'q' —
appends to the edit buffer, Backspace removes the last character, and
Enter, Esc, and every other key commit: the todo's name becomes the
buffer, the buffer is cleared, the state returns to Normal and the list is
persisted. No key exits the loop from edit mode (the 'q' check in the
catch-all branch is unreachable, since 'q' is a character key), and no key
press discards the buffer without committing it. -/
theorem c7_edit_keys (s : LoopState) (i : Nat) (chunks : List Rect)
    (he : s.editing_index = some i) :
    (∀ c : Char, handle_input (.key (.char c)) chunks s =
      ({ s with input_buffer := s.input_buffer.push c }, false)) ∧
    handle_input (.key .backspace) chunks s =
      ({ s with input_buffer := String.mk s.input_buffer.data.dropLast }, false) ∧
    handle_input (.key .enter) chunks s = (commit_edit i s, false) ∧
    handle_input (.key .esc) chunks s = (commit_edit i s, false) ∧
    handle_input (.key .otherKey) chunks s = (commit_edit i s, false) ∧
    (commit_edit i s).editing_index = none ∧
    (commit_edit i s).input_buffer = "" ∧
    (commit_edit i s).saves = (commit_edit i s).todos :: s.saves ∧
    ∀ t, s.todos.get? i = some t →
      (commit_edit i s).todos = s.todos.set i ⟨s.input_buffer, t.progress⟩ := by
  refine ⟨?_, ?_, ?_, ?_, ?_, ?_, ?_, ?_, ?_⟩
  · intro c; simp [handle_input, he]
  · simp [handle_input, he]
  · simp [handle_input, he]
  · simp [handle_input, he]
  · simp [handle_input, he]
  · simp [commit_edit]
  · simp [commit_edit]
  · simp [commit_edit]
  · intro t ht
    rw [List.get?_eq_getElem?] at ht
    simp [commit_edit, ht]

theorem c7_edit_keys_witness :
    handle_input (.key .esc) []
        ⟨[⟨"A", 0⟩], false, none, some 0, "Hi", false, []⟩ =
      (commit_edit 0 ⟨[⟨"A", 0⟩], false, none, some 0, "Hi", false, []⟩, false) ∧
    (commit_edit 0 ⟨[⟨"A", 0⟩], false, none, some 0, "Hi", false, []⟩).editing_index =
      none ∧
    (commit_edit 0 ⟨[⟨"A", 0⟩], false, none, some 0, "Hi", false, []⟩).todos =
      [⟨"A", 0⟩].set 0 ⟨"Hi", 0⟩ :=
  ⟨(c7_edit_keys ⟨[⟨"A", 0⟩], false, none, some 0, "Hi", false, []⟩ 0 [] rfl).2.2.2.1,
   (c7_edit_keys ⟨[⟨"A", 0⟩], false, none, some 0, "Hi", false, []⟩ 0 [] rfl).2.2.2.2.2.1,
   (c7_edit_keys ⟨[⟨"A", 0⟩], false, none, some 0, "Hi", false, []⟩ 0 [] rfl).2.2.2.2.2.2.2.2
     ⟨"A", 0⟩ rfl⟩

/-- C8: a left mouse down whose scan over the rows lands on todo i and
whose position lies in the title region enters Editing(i), sets the
one-shot latch and seeds the buffer with the todo's name — or with the
empty string when that name is the literal "New Todo"; and while the latch
is set, the next mouse event in edit mode is discarded entirely, consuming
only the latch. -/
theorem c8_title_click_and_latch :
    (∀ (s : LoopState) (chunks : List Rect) (m : MouseEvent) (i : Nat) (chunk : Rect),
      m.kind = .down .left →
      find_todo_hit chunks s.todos.length (m.column, m.row) = some (i, chunk) →
      is_inside (m.column, m.row) (split_horizontal chunk).1 = true →
      process_mouse_event m chunks s =
        { s with editing_index := some i, just_started_editing := true,
                 input_buffer :=
                   if (s.todos.getD i default).name = "New Todo" then ""
                   else (s.todos.getD i default).name }) ∧
    (∀ (s : LoopState) (chunks : List Rect) (m : MouseEvent) (i : Nat),
      s.editing_index = some i → s.just_started_editing = true →
      handle_input (.mouse m) chunks s =
        ({ s with just_started_editing := false }, false)) := by
  constructor
  · intro s chunks m i chunk hk hfind htitle
    obtain ⟨kind, col, row⟩ := m
    dsimp only at hk hfind htitle
    subst hk
    simp [process_mouse_event, hfind, htitle]
  · intro s chunks m i he hj
    simp [handle_input, he, hj]

theorem c8_title_click_witness :
    process_mouse_event ⟨.down .left, 5, 1⟩ sample_chunks
        (initial_state [⟨"New Todo", 0⟩]) =
      { initial_state [⟨"New Todo", 0⟩] with
          editing_index := some 0, just_started_editing := true,
          input_buffer :=
            if ((initial_state [⟨"New Todo", 0⟩]).todos.getD 0 default).name =
                "New Todo" then ""
            else ((initial_state [⟨"New Todo", 0⟩]).todos.getD 0 default).name } ∧
    handle_input (.mouse ⟨.up .left, 5, 1⟩) sample_chunks
        ⟨[⟨"New Todo", 0⟩], false, none, some 0, "", true, []⟩ =
      ({ (⟨[⟨"New Todo", 0⟩], false, none, some 0, "", true, []⟩ : LoopState) with
          just_started_editing := false }, false) :=
  ⟨c8_title_click_and_latch.1 (initial_state [⟨"New Todo", 0⟩]) sample_chunks
      ⟨.down .left, 5, 1⟩ 0 ⟨1, 1, 60, 1⟩ rfl (by decide) (by decide),
   c8_title_click_and_latch.2 ⟨[⟨"New Todo", 0⟩], false, none, some 0, "", true, []⟩
      sample_chunks ⟨.up .left, 5, 1⟩ 0 rfl rfl⟩

theorem c6_bar_render_witness :
    build_progress_bar 50 20 =
      "[" ++ String.mk (List.replicate
          (50 * (20 - (2 + (percent_string 50).length)) / 100) '#') ++
        String.mk (List.replicate
          ((20 - (2 + (percent_string 50).length)) -
            50 * (20 - (2 + (percent_string 50).length)) / 100) '-') ++
        "]" ++ percent_string 50 ∧
    (build_progress_bar 50 20).length = 20 :=
  c6_bar_render 50 20 (by decide) (by decide)

/-- Helper: a default-valued lookup in a list of bounded-progress todos is
bounded (the default todo has progress 0). -/
lemma getD_progress_le (l : List Todo) (i : Nat)
    (h : ∀ t ∈ l, t.progress ≤ 100) : (l.getD i default).progress ≤ 100 := by
  rw [List.getD_eq_getElem?_getD]
  cases hq : l[i]? with
  | none => exact Nat.zero_le 100
  | some t => exact h t (List.getElem?_mem hq)

/-- Helper: `update_progress` never produces a progress above 100, thanks
to the `.min(100)` clamp, whatever the geometry and the mouse column. -/
lemma update_progress_le (t : Todo) (area : Rect) (mouse_x : Nat)
    (h : t.progress ≤ 100) : (update_progress t area mouse_x).progress ≤ 100 := by
  simp only [update_progress]
  split
  · exact h
  · split
    · split
      · exact Nat.min_le_right _ 100
      · exact h
    · exact h

/-- Helper: setting one todo preserves the progress bound when the new
todo satisfies it. -/
lemma set_progress_le (l : List Todo) (i : Nat) (t : Todo)
    (h : ∀ x ∈ l, x.progress ≤ 100) (ht : t.progress ≤ 100) :
    ∀ x ∈ l.set i t, x.progress ≤ 100 := by
  intro x hx
  rcases List.mem_or_eq_of_mem_set hx with h1 | h1
  · exact h x h1
  · subst h1; exact ht

/-- Helper: the commit sequence only renames one todo, so it preserves the
progress bound. -/
lemma commit_edit_progress_le (i : Nat) (s : LoopState)
    (h : ∀ x ∈ s.todos, x.progress ≤ 100) :
    ∀ x ∈ (commit_edit i s).todos, x.progress ≤ 100 := by
  simp only [commit_edit]
  cases hq : s.todos.get? i with
  | none => simpa using h
  | some t =>
    simp only
    exact set_progress_le _ _ _ h (h t (List.get?_mem hq))

/-- Helper: `process_mouse_event` preserves the progress bound: the bar
branches write a clamped value, the add branch appends progress 0. -/
lemma process_progress_le (m : MouseEvent) (chunks : List Rect) (s : LoopState)
    (h : ∀ x ∈ s.todos, x.progress ≤ 100) :
    ∀ x ∈ (process_mouse_event m chunks s).todos, x.progress ≤ 100 := by
  simp only [process_mouse_event]
  split
  · split
    · split
      · split
        · exact h
        · split
          · exact set_progress_le _ _ _ h
              (update_progress_le _ _ _ (getD_progress_le _ _ h))
          · exact h
      · split
        · split
          · intro x hx
            rcases List.mem_append.1 hx with h1 | h1
            · exact h x h1
            · rcases List.mem_singleton.1 h1 with rfl
              exact Nat.zero_le 100
          · exact h
        · exact h
    · exact h
  · split
    · split
      · split
        · exact set_progress_le _ _ _ h
            (update_progress_le _ _ _ (getD_progress_le _ _ h))
        · exact h
      · exact h
    · exact h
  · split
    · exact h
    · exact h
  · exact h

/-- Helper: one whole event-loop iteration preserves the progress bound. -/
lemma handle_progress_le (ev : Event) (chunks : List Rect) (s : LoopState)
    (h : ∀ x ∈ s.todos, x.progress ≤ 100) :
    ∀ x ∈ (handle_event ev chunks s).1.todos, x.progress ≤ 100 := by
  cases ev with
  | tick => exact h
  | input e =>
    simp only [handle_event, handle_input]
    split
    · next i hi =>
      match e with
      | .key k =>
        cases k with
        | char c => exact h
        | backspace => exact h
        | enter => exact commit_edit_progress_le i s h
        | esc => exact commit_edit_progress_le i s h
        | otherKey => exact commit_edit_progress_le i s h
      | .mouse m =>
        simp only
        split
        · exact h
        · split
          · exact h
          · exact process_progress_le _ _ _ (commit_edit_progress_le i s h)
      | .otherEvent => exact commit_edit_progress_le i s h
    · match e with
      | .key k => exact h
      | .mouse m => exact process_progress_le _ _ _ h
      | .otherEvent => exact h

/-- C1: along every sequence of handled events (with the layout recomputed
arbitrarily at each iteration, as `main` does), every todo's progress stays
within the closed range 0–100, provided it started there. -/
theorem c1_progress_in_range (steps : List (List Rect × Event)) (s : LoopState)
    (h : ∀ t ∈ s.todos, 0 ≤ t.progress ∧ t.progress ≤ 100) :
    ∀ t ∈ (run_events steps s).todos, 0 ≤ t.progress ∧ t.progress ≤ 100 := by
  have h' : ∀ t ∈ s.todos, t.progress ≤ 100 := fun t ht => (h t ht).2
  clear h
  induction steps generalizing s with
  | nil => exact fun t ht => ⟨Nat.zero_le _, h' t ht⟩
  | cons p rest ih =>
    obtain ⟨chunks, ev⟩ := p
    simp only [run_events]
    split
    · exact fun t ht => ⟨Nat.zero_le _, handle_progress_le ev chunks s h' t ht⟩
    · exact ih _ (handle_progress_le ev chunks s h')

theorem c1_progress_in_range_witness :
    0 ≤ (Todo.mk "New Todo" 32).progress ∧ (Todo.mk "New Todo" 32).progress ≤ 100 :=
  c1_progress_in_range
    [(sample_chunks, .input (.mouse ⟨.down .left, 40, 1⟩))]
    (initial_state [⟨"New Todo", 0⟩]) (by decide) ⟨"New Todo", 32⟩ (by decide)

/-- C2 fails as stated: from the initial state with one todo, a left Down
on the bar (starting a drag) followed — with no intervening left Up — by a
left Down on the title reaches a state with `dragging = true` and
`editing_index = some 0` simultaneously: the title branch of
`process_mouse_event` sets the edit state without clearing `dragging`. -/
theorem c2_counterexample :
    (run_events
        [(sample_chunks, .input (.mouse ⟨.down .left, 40, 1⟩)),
         (sample_chunks, .input (.mouse ⟨.down .left, 5, 1⟩))]
        (initial_state [⟨"New Todo", 0⟩])).dragging = true ∧
    (run_events
        [(sample_chunks, .input (.mouse ⟨.down .left, 40, 1⟩)),
         (sample_chunks, .input (.mouse ⟨.down .left, 5, 1⟩))]
        (initial_state [⟨"New Todo", 0⟩])).editing_index = some 0 := by
  constructor
  · rfl
  · rfl

/-- Helper: `process_mouse_event`, called with the edit state cleared (as
the program always does), preserves the mutual exclusion, and its dragging
output is covered by the pending-Down flag — provided a left Down is only
processed while not dragging. -/
lemma process_mutex_flag (m : MouseEvent) (chunks : List Rect) (s : LoopState)
    (flag : Bool) (he : s.editing_index = none)
    (hf : s.dragging = true → flag = true)
    (hd : m.kind = .down .left → s.dragging = false) :
    mutex (process_mouse_event m chunks s) ∧
    ((process_mouse_event m chunks s).dragging = true →
      down_flag (.input (.mouse m)) flag = true) := by
  obtain ⟨kind, col, row⟩ := m
  cases kind with
  | down b =>
    by_cases hb : b = MouseButton.left
    · subst hb
      have hdr : s.dragging = false := hd rfl
      constructor
      · simp only [process_mouse_event]
        repeat' split
        all_goals simp_all [mutex]
      · intro _
        simp [down_flag]
    · constructor
      · simp only [process_mouse_event]
        rw [if_neg hb]
        exact Or.inr he
      · intro hdrag
        have h1 : down_flag (.input (.mouse ⟨.down b, col, row⟩)) flag = flag := by
          simp [down_flag, hb]
        rw [h1]
        simp only [process_mouse_event] at hdrag
        rw [if_neg hb] at hdrag
        exact hf hdrag
  | drag b =>
    constructor
    · simp only [process_mouse_event]
      repeat' split
      all_goals exact Or.inr he
    · intro hdrag
      have h1 : down_flag (.input (.mouse ⟨.drag b, col, row⟩)) flag = flag := by
        simp [down_flag]
      rw [h1]
      refine hf ?_
      simp only [process_mouse_event] at hdrag
      revert hdrag
      repeat' split
      all_goals exact id
  | up b =>
    by_cases hb : b = MouseButton.left
    · subst hb
      constructor
      · simp only [process_mouse_event]
        rw [if_pos trivial]
        exact Or.inl rfl
      · intro hdrag
        simp only [process_mouse_event] at hdrag
        rw [if_pos trivial] at hdrag
        simp at hdrag
    · constructor
      · simp only [process_mouse_event]
        rw [if_neg hb]
        exact Or.inr he
      · intro hdrag
        have h1 : down_flag (.input (.mouse ⟨.up b, col, row⟩)) flag = flag := by
          simp [down_flag, hb]
        rw [h1]
        simp only [process_mouse_event] at hdrag
        rw [if_neg hb] at hdrag
        exact hf hdrag
  | moved =>
    exact ⟨Or.inr he, fun hdrag => by
      have h1 : down_flag (.input (.mouse ⟨.moved, col, row⟩)) flag = flag := by
        simp [down_flag]
      rw [h1]
      exact hf hdrag⟩
  | otherMouse =>
    exact ⟨Or.inr he, fun hdrag => by
      have h1 : down_flag (.input (.mouse ⟨.otherMouse, col, row⟩)) flag = flag := by
        simp [down_flag]
      rw [h1]
      exact hf hdrag⟩

/-- Helper: a single loop iteration preserves the mutual exclusion and the
flag coverage, for any event that respects the pending-Down discipline. -/
lemma handle_mutex_step (ev : Event) (chunks : List Rect) (s : LoopState)
    (flag : Bool) (hm : mutex s) (hf : s.dragging = true → flag = true)
    (hwf : left_down_event ev = true → flag = false) :
    mutex (handle_event ev chunks s).1 ∧
    ((handle_event ev chunks s).1.dragging = true → down_flag ev flag = true) := by
  cases ev with
  | tick => exact ⟨hm, hf⟩
  | input e =>
    cases e with
    | key k =>
      cases hei : s.editing_index with
      | none =>
        simp only [handle_event, handle_input, hei]
        exact ⟨hm, fun hdrag => by simpa [down_flag] using hf hdrag⟩
      | some i =>
        have hdr : s.dragging = false := by
          rcases hm with h | h
          · exact h
          · rw [hei] at h; cases h
        cases k with
        | char c =>
          simp only [handle_event, handle_input, hei]
          exact ⟨Or.inl hdr, fun hdrag => by simpa [down_flag] using hf hdrag⟩
        | backspace =>
          simp only [handle_event, handle_input, hei]
          exact ⟨Or.inl hdr, fun hdrag => by simpa [down_flag] using hf hdrag⟩
        | enter =>
          simp only [handle_event, handle_input, hei]
          exact ⟨Or.inr rfl, fun hdrag => by simpa [down_flag] using hf hdrag⟩
        | esc =>
          simp only [handle_event, handle_input, hei]
          exact ⟨Or.inr rfl, fun hdrag => by simpa [down_flag] using hf hdrag⟩
        | otherKey =>
          simp only [handle_event, handle_input, hei]
          exact ⟨Or.inr rfl, fun hdrag => by simpa [down_flag] using hf hdrag⟩
    | mouse m =>
      cases hei : s.editing_index with
      | none =>
        simp only [handle_event, handle_input, hei]
        exact process_mutex_flag m chunks s flag hei hf (by
          intro hk
          by_cases hdrag : s.dragging = true
          · exfalso
            have hft : flag = true := hf hdrag
            have hff : flag = false := hwf (by
              obtain ⟨kind, col, row⟩ := m
              dsimp only at hk
              subst hk
              rfl)
            rw [hft] at hff
            cases hff
          · simpa using hdrag)
      | some i =>
        have hdr : s.dragging = false := by
          rcases hm with h | h
          · exact h
          · rw [hei] at h; cases h
        obtain ⟨kind, col, row⟩ := m
        simp only [handle_event, handle_input, hei]
        by_cases hj : s.just_started_editing = true
        · rw [if_pos hj]
          refine ⟨Or.inl hdr, fun hdrag => ?_⟩
          have h2 : s.dragging = true := hdrag
          rw [hdr] at h2
          cases h2
        · rw [if_neg hj]
          have hfc : (commit_edit i s).dragging = true → flag = true := by
            intro h2
            have h3 : s.dragging = true := h2
            rw [hdr] at h3
            cases h3
          have hdc : (⟨kind, col, row⟩ : MouseEvent).kind = .down .left →
              (commit_edit i s).dragging = false := fun _ => hdr
          cases kind with
          | moved =>
            exact ⟨hm, fun hdrag => by simpa [down_flag] using hf hdrag⟩
          | down b =>
            exact process_mutex_flag ⟨.down b, col, row⟩ chunks (commit_edit i s)
              flag rfl hfc hdc
          | up b =>
            exact process_mutex_flag ⟨.up b, col, row⟩ chunks (commit_edit i s)
              flag rfl hfc hdc
          | drag b =>
            exact process_mutex_flag ⟨.drag b, col, row⟩ chunks (commit_edit i s)
              flag rfl hfc hdc
          | otherMouse =>
            exact process_mutex_flag ⟨.otherMouse, col, row⟩ chunks (commit_edit i s)
              flag rfl hfc hdc
    | otherEvent =>
      cases hei : s.editing_index with
      | none =>
        simp only [handle_event, handle_input, hei]
        exact ⟨hm, fun hdrag => by simpa [down_flag] using hf hdrag⟩
      | some i =>
        simp only [handle_event, handle_input, hei]
        exact ⟨Or.inr rfl, fun hdrag => by simpa [down_flag] using hf hdrag⟩

/-- Helper: the mutual exclusion holds after running any well-formed event
sequence from a state where it holds and the flag covers `dragging`. -/
lemma run_mutex (steps : List (List Rect × Event)) :
    ∀ (s : LoopState) (flag : Bool), mutex s → (s.dragging = true → flag = true) →
      wf_events steps flag = true → mutex (run_events steps s) := by
  induction steps with
  | nil => intro s flag hm _ _; exact hm
  | cons p rest ih =>
    intro s flag hm hf hwf
    obtain ⟨chunks, ev⟩ := p
    simp only [wf_events, Bool.and_eq_true] at hwf
    obtain ⟨h1, h2⟩ := hwf
    have h1' : left_down_event ev = true → flag = false := by
      intro hl
      rw [hl] at h1
      cases flag with
      | false => rfl
      | true => simp at h1
    have step := handle_mutex_step ev chunks s flag hm hf h1'
    simp only [run_events]
    split
    · exact step.1
    · exact ih _ _ step.1 step.2 h2

/-- C2 (amended): the mutual exclusion of dragging and editing is not
preserved by arbitrary event sequences (see the counterexample: a left
Down arriving while dragging can enter editing with `dragging` still
true); it is preserved along every well-formed sequence — one in which a
left-button Down is only handled when every earlier left Down has been
matched by a left Up, as a physical mouse guarantees: after handling such
a sequence, `dragging = true` implies `editing_index = none`, and
`editing_index ≠ none` implies `dragging = false`. -/
theorem c2_mutex_wellformed (steps : List (List Rect × Event)) (s : LoopState)
    (flag : Bool) (hm : s.dragging = true → s.editing_index = none)
    (hf : s.dragging = true → flag = true)
    (hwf : wf_events steps flag = true) :
    ((run_events steps s).dragging = true → (run_events steps s).editing_index = none) ∧
    ((run_events steps s).editing_index ≠ none → (run_events steps s).dragging = false) := by
  have hm0 : mutex s := by
    by_cases hdr : s.dragging = true
    · exact Or.inr (hm hdr)
    · exact Or.inl (by simpa using hdr)
  have hr := run_mutex steps s flag hm0 hf hwf
  constructor
  · intro hdrag
    rcases hr with h | h
    · rw [hdrag] at h; exact absurd h (by simp)
    · exact h
  · intro hne
    rcases hr with h | h
    · exact h
    · exact absurd h hne

theorem c2_mutex_wellformed_witness :
    (run_events
        [(sample_chunks, .input (.mouse ⟨.down .left, 40, 1⟩)),
         (sample_chunks, .input (.mouse ⟨.up .left, 40, 1⟩)),
         (sample_chunks, .input (.mouse ⟨.down .left, 5, 1⟩))]
        (initial_state [⟨"New Todo", 0⟩])).dragging = false :=
  (c2_mutex_wellformed
      [(sample_chunks, .input (.mouse ⟨.down .left, 40, 1⟩)),
       (sample_chunks, .input (.mouse ⟨.up .left, 40, 1⟩)),
       (sample_chunks, .input (.mouse ⟨.down .left, 5, 1⟩))]
      (initial_state [⟨"New Todo", 0⟩]) false (by decide) (by decide)
      (by decide)).2 (by decide)

end Ratodui
